import Mathlib

/- A shallow embedding of src/tuf/signed/ed25519.go: the in-memory Ed25519
key store (`Ed25519` cryptosystem). Go maps from strings are modelled as
association lists with Go map semantics: insert replaces an existing
binding, delete of an absent key is a no-op, and a read miss yields the
zero value. The external packages used by the file (the `data` package,
the `ed25519` primitive and `crypto/rand`) are not part of this fragment;
where their behavior decides a property they are modelled from the spec,
as noted on each definition. -/

namespace Notary

/-- Association-list model of a Go map read: first binding wins. -/
def regLookup {α : Type} : List (String × α) → String → Option α
  | [], _ => none
  | p :: rest, k => if p.1 = k then some p.2 else regLookup rest k

/-- Association-list model of a Go map write: replaces an existing binding
in place, otherwise appends a new one. -/
def regInsert {α : Type} : List (String × α) → String → α → List (String × α)
  | [], k, v => [(k, v)]
  | p :: rest, k, v => if p.1 = k then (k, v) :: rest else p :: regInsert rest k v

/-- Association-list model of Go `delete`: removes every binding for the
key (at most one under the no-duplicate invariant), no-op when absent. -/
def regDelete {α : Type} : List (String × α) → String → List (String × α)
  | [], _ => []
  | p :: rest, k => if p.1 = k then regDelete rest k else p :: regDelete rest k

/-- Modelled from the spec: `data.ED25519Key`, the single supported
algorithm identifier recognized by `Create` (§6: "a single fixed string
constant recognized by `Create`"). -/
def ED25519Key : String := "ed25519"

/-- Modelled from the spec: `data.EDDSASignature`, the fixed signature
algorithm tag recorded in a signature's `method` field (§4.3). -/
def EDDSASignature : String := "eddsa"

/-- Modelled from the spec: `data.PrivateKey`, an algorithm tag plus the
public and private raw bytes (§6). Its Go zero value — relevant because a
map miss in `Sign`/`GetKey`/`GetPrivateKey` produces it (§9: "uses a
zero-valued private key when a requested identifier is absent") — has all
fields empty. -/
structure PrivateKey where
  algorithm : String
  pubBytes : List Nat
  privBytes : List Nat
deriving DecidableEq, Repr

/-- The Go zero value of `data.PrivateKey`. -/
def zeroPrivateKey : PrivateKey := ⟨"", [], []⟩

/-- Modelled from the spec: the `keyID` derivation, "deterministically
derived from the public key (e.g., a content hash of the public key
bytes)" (§3). The hash primitive lives outside this fragment; an
injective encoding of the algorithm tag and public bytes stands in for
it. -/
def hashPublicKey (alg : String) (pub : List Nat) : String :=
  alg ++ ":" ++ (pub.map toString).foldl (fun a b => a ++ "," ++ b) ""

/-- Modelled from the spec: `k.ID()`, the identifier derived from the
key's public component (§3). -/
def PrivateKey.ID (k : PrivateKey) : String :=
  hashPublicKey k.algorithm k.pubBytes

/-- Modelled from the spec: `k.Private()`, the raw private key bytes. -/
def PrivateKey.Private (k : PrivateKey) : List Nat :=
  k.privBytes

/-- Modelled from the spec: `data.PublicKey`, an algorithm tag plus raw
public key bytes (§6). -/
structure PublicKey where
  algorithm : String
  public : List Nat
deriving DecidableEq, Repr

/-- Modelled from the spec: `data.NewED25519PublicKey`. -/
def NewED25519PublicKey (bs : List Nat) : PublicKey :=
  ⟨ED25519Key, bs⟩

/-- Modelled from the spec: `data.PublicKeyFromPrivate` derives the
public counterpart of a private key's material (§3: "computable on
demand"). On the zero-valued private key it yields the zero-derived
public key. -/
def PublicKeyFromPrivate (k : PrivateKey) : PublicKey :=
  ⟨k.algorithm, k.pubBytes⟩

/-- Modelled from the spec: `data.NewED25519PrivateKey`, pairing the
public key with the raw private bytes. -/
def NewED25519PrivateKey (pub : PublicKey) (priv : List Nat) : PrivateKey :=
  ⟨pub.algorithm, pub.public, priv⟩

/-- `data.Signature`: `{keyID, method, signatureBytes}` as produced by
`Sign`. -/
structure Signature where
  keyID : String
  method : String
  signature : List Nat
deriving DecidableEq, Repr

/-- `edCryptoKey` from ed25519.go: a role paired with private key
material. -/
structure edCryptoKey where
  role : String
  privKey : PrivateKey
deriving DecidableEq, Repr

/-- The Go zero value of `edCryptoKey`, produced by a map read miss. -/
def zeroEdCryptoKey : edCryptoKey := ⟨"", zeroPrivateKey⟩

/-- `Ed25519` from ed25519.go: the in-memory registry. -/
structure Ed25519 where
  keys : List (String × edCryptoKey)
deriving DecidableEq, Repr

/-- `NewEd25519`: a fresh empty store. -/
def NewEd25519 : Ed25519 := ⟨[]⟩

/-- Go map read with zero value on a miss, as `e.keys[keyID]` behaves in
`Sign`, `GetKey` and `GetPrivateKey`. -/
def regLookupZero (m : List (String × edCryptoKey)) (k : String) : edCryptoKey :=
  (regLookup m k).getD zeroEdCryptoKey

/-- `addKey`: stores the entry under the key's own derived identifier. -/
def addKey (e : Ed25519) (role : String) (k : PrivateKey) : Ed25519 :=
  ⟨regInsert e.keys k.ID ⟨role, k⟩⟩

/-- `RemoveKey`: deletes the binding and returns the Go error, which is
always nil (`none`). -/
def RemoveKey (e : Ed25519) (keyID : String) : Ed25519 × Option String :=
  (⟨regDelete e.keys keyID⟩, none)

/-- `ListKeys`: ranges over the whole map collecting identifiers; the
`role` parameter is never consulted. -/
def ListKeys (e : Ed25519) (role : String) : List String :=
  e.keys.map Prod.fst

/-- `ListAllKeys`: identifier-to-role snapshot of the registry. -/
def ListAllKeys (e : Ed25519) : List (String × String) :=
  e.keys.map (fun p => (p.1, p.2.role))

/-- `ed25519.PrivateKeySize` from the primitive library: 64 bytes. -/
def PrivateKeySize : Nat := 64

/-- Go `copy` into a zero-filled buffer of length `n`: the source is
truncated to `n` and the remainder of the buffer stays zero. -/
def copyToBuf (n : Nat) (src : List Nat) : List Nat :=
  src.take n ++ List.replicate (n - src.length) 0

/-- Modelled from the spec: the external `ed25519.Sign` primitive (§2
treats the cryptographic library as a trusted external service). A
deterministic function of the private key buffer and the message stands
in for it. -/
def ed25519Sign (priv : List Nat) (toSign : List Nat) : List Nat :=
  priv ++ toSign

/-- `Sign` from ed25519.go: one signature per requested identifier, in
input order; a map miss silently signs with the zero-filled key buffer;
the returned Go error is always nil (`none`). -/
def Sign (e : Ed25519) (keyIDs : List String) (toSign : List Nat) :
    List Signature × Option String :=
  (keyIDs.map (fun keyID =>
    let priv := copyToBuf PrivateKeySize ((regLookupZero e.keys keyID).privKey.Private)
    { keyID := keyID, method := EDDSASignature, signature := ed25519Sign priv toSign }),
   none)

/-- Outcome of the external `ed25519.GenerateKey(rand.Reader)` call (and
of `data.NewED25519PrivateKey`'s validation), passed to `Create` as a
parameter since randomness is an external service (§2). -/
inductive GenResult where
  | ok (pub : List Nat) (priv : List Nat)
  | fail (msg : String)
deriving DecidableEq, Repr

/-- `Create` from ed25519.go: rejects any algorithm other than
`ED25519Key`, otherwise registers the generated key under its derived
identifier and returns the public part. Result: (new store, returned
public key, Go error). -/
def Create (e : Ed25519) (role algorithm : String) (gen : GenResult) :
    Ed25519 × Option PublicKey × Option String :=
  if algorithm ≠ ED25519Key then
    (e, none, some "only ED25519 supported by this cryptoservice")
  else
    match gen with
    | .fail msg => (e, none, some msg)
    | .ok pub priv =>
      let pk := NewED25519PublicKey pub
      let sk := NewED25519PrivateKey pk priv
      (addKey e role sk, some pk, none)

/-- The loop body of `PublicKeys`: inserts the derived public key for
every requested identifier found in the store, skipping misses. -/
def publicKeysLoop (e : Ed25519) (acc : List (String × PublicKey)) :
    List String → List (String × PublicKey)
  | [] => acc
  | keyID :: rest =>
    match regLookup e.keys keyID with
    | some edKey =>
        publicKeysLoop e (regInsert acc keyID (PublicKeyFromPrivate edKey.privKey)) rest
    | none => publicKeysLoop e acc rest

/-- `PublicKeys` from ed25519.go: best-effort batch lookup; the returned
Go error is always nil (`none`). -/
def PublicKeys (e : Ed25519) (keyIDs : List String) :
    List (String × PublicKey) × Option String :=
  (publicKeysLoop e [] keyIDs, none)

/-- `GetKey` from ed25519.go: derives the public key from the stored
entry; a map miss silently derives from the zero value. No error
channel exists in its signature. -/
def GetKey (e : Ed25519) (keyID : String) : PublicKey :=
  PublicKeyFromPrivate (regLookupZero e.keys keyID).privKey

/-- `GetPrivateKey` from ed25519.go: returns the stored private key (the
zero value on a miss), a hard-coded empty role string, and a nil error. -/
def GetPrivateKey (e : Ed25519) (keyID : String) : PrivateKey × String × Option String :=
  ((regLookupZero e.keys keyID).privKey, "", none)

/-- The registry-mutating operations of the store; the read accessors
(`ListKeys`, `ListAllKeys`, `GetKey`, `GetPrivateKey`, `PublicKeys`,
`Sign`) take the store as a plain argument and return no new store, so
they cannot change it. -/
inductive Op where
  | create (role algorithm : String) (gen : GenResult)
  | addK (role : String) (k : PrivateKey)
  | remove (keyID : String)

/-- One step of the store's mutable life. -/
def applyOp (e : Ed25519) : Op → Ed25519
  | .create role alg gen => (Create e role alg gen).1
  | .addK role k => addKey e role k
  | .remove kid => (RemoveKey e kid).1

/-- The store reached from `NewEd25519` by a sequence of operations. -/
def run (ops : List Op) : Ed25519 :=
  ops.foldl applyOp NewEd25519

/-- The registry invariant of §3: every entry's registry key is the
identifier recomputed from its own key, and no two entries share a
registry key. -/
def selfConsistent (e : Ed25519) : Prop :=
  (∀ p ∈ e.keys, p.2.privKey.ID = p.1) ∧ (e.keys.map Prod.fst).Nodup

theorem regLookup_eq_none_iff {α : Type} (m : List (String × α)) (k : String) :
    regLookup m k = none ↔ k ∉ m.map Prod.fst := by
  induction m with
  | nil => simp [regLookup]
  | cons p rest ih =>
    obtain ⟨a, b⟩ := p
    by_cases h : a = k
    · subst h; simp [regLookup]
    · simp [regLookup, h, ih, Ne.symm h]

theorem regLookup_regInsert {α : Type} (m : List (String × α)) (k : String) (v : α)
    (k2 : String) :
    regLookup (regInsert m k v) k2 = if k2 = k then some v else regLookup m k2 := by
  induction m with
  | nil =>
    by_cases h : k2 = k
    · subst h; simp [regInsert, regLookup]
    · simp [regInsert, regLookup, h, Ne.symm h]
  | cons p rest ih =>
    obtain ⟨a, b⟩ := p
    by_cases h : a = k
    · subst h
      by_cases h2 : k2 = a
      · subst h2; simp [regInsert, regLookup]
      · simp [regInsert, regLookup, h2, Ne.symm h2]
    · by_cases h2 : a = k2
      · have hk2k : ¬ k2 = k := fun hh => h (h2.trans hh)
        simp [regInsert, regLookup, h, h2, hk2k]
      · simp [regInsert, regLookup, h, h2, ih]

theorem regInsert_map_fst_of_none {α : Type} (m : List (String × α)) (k : String) (v : α)
    (h : regLookup m k = none) :
    (regInsert m k v).map Prod.fst = m.map Prod.fst ++ [k] := by
  induction m with
  | nil => simp [regInsert]
  | cons p rest ih =>
    obtain ⟨a, b⟩ := p
    by_cases ha : a = k
    · simp [regLookup, ha] at h
    · simp only [regLookup, if_neg ha] at h
      simp [regInsert, ha, ih h]

theorem regInsert_map_fst_of_some {α : Type} (m : List (String × α)) (k : String) (v : α)
    (h : (regLookup m k).isSome = true) :
    (regInsert m k v).map Prod.fst = m.map Prod.fst := by
  induction m with
  | nil => simp [regLookup] at h
  | cons p rest ih =>
    obtain ⟨a, b⟩ := p
    by_cases ha : a = k
    · simp [regInsert, ha]
    · simp only [regLookup, if_neg ha] at h
      simp [regInsert, ha, ih h]

theorem mem_regInsert {α : Type} (m : List (String × α)) (k : String) (v : α)
    (q : String × α) (h : q ∈ regInsert m k v) : q ∈ m ∨ q = (k, v) := by
  induction m with
  | nil => exact Or.inr (by simpa [regInsert] using h)
  | cons p rest ih =>
    by_cases hp : p.1 = k
    · simp only [regInsert, if_pos hp] at h
      rcases List.mem_cons.mp h with h1 | h1
      · exact Or.inr h1
      · exact Or.inl (List.mem_cons_of_mem p h1)
    · simp only [regInsert, if_neg hp] at h
      rcases List.mem_cons.mp h with h1 | h1
      · exact Or.inl (h1 ▸ List.mem_cons_self p rest)
      · rcases ih h1 with h2 | h2
        · exact Or.inl (List.mem_cons_of_mem p h2)
        · exact Or.inr h2

theorem regInsert_length_of_mem {α : Type} (m : List (String × α)) (k : String) (v : α)
    (h : (regLookup m k).isSome = true) : (regInsert m k v).length = m.length := by
  induction m with
  | nil => simp [regLookup] at h
  | cons p rest ih =>
    by_cases hp : p.1 = k
    · simp [regInsert, hp]
    · simp only [regLookup, if_neg hp] at h
      simp [regInsert, hp, ih h]

theorem mem_regDelete {α : Type} (m : List (String × α)) (k : String)
    (q : String × α) (h : q ∈ regDelete m k) : q ∈ m := by
  induction m with
  | nil => simp [regDelete] at h
  | cons p rest ih =>
    by_cases hp : p.1 = k
    · simp only [regDelete, if_pos hp] at h
      exact List.mem_cons_of_mem p (ih h)
    · simp only [regDelete, if_neg hp] at h
      rcases List.mem_cons.mp h with h1 | h1
      · exact h1 ▸ List.mem_cons_self p rest
      · exact List.mem_cons_of_mem p (ih h1)

theorem regDelete_map_fst_sublist {α : Type} (m : List (String × α)) (k : String) :
    ((regDelete m k).map Prod.fst).Sublist (m.map Prod.fst) := by
  induction m with
  | nil => simp [regDelete]
  | cons p rest ih =>
    by_cases hp : p.1 = k
    · simp only [regDelete, if_pos hp, List.map_cons]
      exact ih.cons p.1
    · simp only [regDelete, if_neg hp, List.map_cons]
      exact ih.cons₂ p.1

theorem regDelete_regDelete {α : Type} (m : List (String × α)) (k : String) :
    regDelete (regDelete m k) k = regDelete m k := by
  induction m with
  | nil => simp [regDelete]
  | cons p rest ih =>
    by_cases hp : p.1 = k
    · simp [regDelete, hp, ih]
    · simp [regDelete, hp, ih]

theorem regLookup_regDelete_self {α : Type} (m : List (String × α)) (k : String) :
    regLookup (regDelete m k) k = none := by
  induction m with
  | nil => simp [regDelete, regLookup]
  | cons p rest ih =>
    by_cases hp : p.1 = k
    · simp [regDelete, hp, ih]
    · simp [regDelete, hp, regLookup, ih]

theorem regDelete_of_lookup_none {α : Type} (m : List (String × α)) (k : String)
    (h : regLookup m k = none) : regDelete m k = m := by
  induction m with
  | nil => simp [regDelete]
  | cons p rest ih =>
    by_cases hp : p.1 = k
    · simp [regLookup, hp] at h
    · simp only [regLookup, if_neg hp] at h
      simp [regDelete, hp, ih h]

theorem addKey_selfConsistent (e : Ed25519) (role : String) (k : PrivateKey)
    (h : selfConsistent e) : selfConsistent (addKey e role k) := by
  obtain ⟨h1, h2⟩ := h
  constructor
  · intro p hp
    rcases mem_regInsert e.keys k.ID ⟨role, k⟩ p hp with hm | he
    · exact h1 p hm
    · subst he; rfl
  · show ((regInsert e.keys k.ID ⟨role, k⟩).map Prod.fst).Nodup
    cases hl : regLookup e.keys k.ID with
    | none =>
      rw [regInsert_map_fst_of_none e.keys k.ID ⟨role, k⟩ hl]
      have hnm : k.ID ∉ e.keys.map Prod.fst := (regLookup_eq_none_iff e.keys k.ID).mp hl
      simp [List.nodup_append, h2, hnm]
    | some w =>
      rw [regInsert_map_fst_of_some e.keys k.ID ⟨role, k⟩ (by simp [hl])]
      exact h2

theorem removeKey_selfConsistent (e : Ed25519) (kid : String)
    (h : selfConsistent e) : selfConsistent (RemoveKey e kid).1 := by
  obtain ⟨h1, h2⟩ := h
  constructor
  · intro p hp
    exact h1 p (mem_regDelete e.keys kid p hp)
  · exact (regDelete_map_fst_sublist e.keys kid).nodup h2

theorem create_selfConsistent (e : Ed25519) (role alg : String) (gen : GenResult)
    (h : selfConsistent e) : selfConsistent (Create e role alg gen).1 := by
  unfold Create
  by_cases ha : alg ≠ ED25519Key
  · rw [if_pos ha]; exact h
  · rw [if_neg ha]
    cases gen with
    | fail msg => exact h
    | ok pub priv => exact addKey_selfConsistent e role _ h

theorem foldl_selfConsistent (ops : List Op) (e : Ed25519)
    (h : selfConsistent e) : selfConsistent (ops.foldl applyOp e) := by
  induction ops generalizing e with
  | nil => exact h
  | cons op rest ih =>
    apply ih
    cases op with
    | create role alg gen => exact create_selfConsistent e role alg gen h
    | addK role k => exact addKey_selfConsistent e role k h
    | remove kid => exact removeKey_selfConsistent e kid h

/-- Claim C5: across every sequence of operations starting from the empty
store, every registry entry is keyed by the identifier derived from its
own key's public component, and no two entries share a keyID. The read
accessors take the store by value and return no store, so they cannot
break the invariant. -/
theorem C5_registry_invariant (ops : List Op) : selfConsistent (run ops) :=
  foldl_selfConsistent ops NewEd25519
    ⟨fun p hp => absurd hp (List.not_mem_nil p), List.nodup_nil⟩

/-- Claim C4: for every store, role, algorithm other than `ED25519Key`
and generation outcome, `Create` fails with the unsupported-algorithm
error, returns no public key, and leaves the registry unchanged. -/
theorem C4_create_rejects_unknown_algorithm (e : Ed25519) (role alg : String)
    (gen : GenResult) (h : alg ≠ ED25519Key) :
    (Create e role alg gen).1 = e ∧ (Create e role alg gen).2.1 = none ∧
    (Create e role alg gen).2.2 = some "only ED25519 supported by this cryptoservice" := by
  unfold Create
  rw [if_pos h]
  exact ⟨rfl, rfl, rfl⟩

/-- Witness for C4 at a concrete unsupported algorithm. -/
theorem C4_create_rejects_unknown_algorithm_witness :
    ("rsa" ≠ ED25519Key) ∧
    ((Create NewEd25519 "root" "rsa" (GenResult.ok [1] [2])).1 = NewEd25519 ∧
     (Create NewEd25519 "root" "rsa" (GenResult.ok [1] [2])).2.1 = none ∧
     (Create NewEd25519 "root" "rsa" (GenResult.ok [1] [2])).2.2 =
       some "only ED25519 supported by this cryptoservice") :=
  ⟨by decide,
   C4_create_rejects_unknown_algorithm NewEd25519 "root" "rsa"
     (GenResult.ok [1] [2]) (by decide)⟩

/-- Claim C6: for every store and any two role arguments, `ListKeys`
returns the same list — exactly the registry's stored identifiers —
regardless of the role filter value. -/
theorem C6_listKeys_ignores_role (e : Ed25519) (role role2 : String) :
    ListKeys e role = ListKeys e role2 ∧ ListKeys e role = e.keys.map Prod.fst :=
  ⟨rfl, rfl⟩

/-- Claim C8: `RemoveKey` never returns an error, removes the binding,
is idempotent (a second removal returns no error and the same state),
and is a no-op on an absent identifier. -/
theorem C8_removeKey_idempotent (e : Ed25519) (kid : String) :
    (RemoveKey e kid).2 = none ∧
    regLookup ((RemoveKey e kid).1).keys kid = none ∧
    RemoveKey (RemoveKey e kid).1 kid = RemoveKey e kid ∧
    (regLookup e.keys kid = none → (RemoveKey e kid).1 = e) := by
  refine ⟨rfl, ?_, ?_, ?_⟩
  · exact regLookup_regDelete_self e.keys kid
  · show (Ed25519.mk (regDelete (regDelete e.keys kid) kid), (none : Option String)) =
      (Ed25519.mk (regDelete e.keys kid), (none : Option String))
    rw [regDelete_regDelete]
  · intro h
    show Ed25519.mk (regDelete e.keys kid) = e
    rw [regDelete_of_lookup_none e.keys kid h]

/-- Witness for C8 at a concrete store and identifier. -/
theorem C8_removeKey_idempotent_witness :
    (RemoveKey NewEd25519 "absent").2 = none ∧
    regLookup ((RemoveKey NewEd25519 "absent").1).keys "absent" = none ∧
    RemoveKey (RemoveKey NewEd25519 "absent").1 "absent" = RemoveKey NewEd25519 "absent" ∧
    (regLookup NewEd25519.keys "absent" = none → (RemoveKey NewEd25519 "absent").1 = NewEd25519) :=
  C8_removeKey_idempotent NewEd25519 "absent"

/-- Claim C10: when `addKey` receives a key whose derived identifier is
already a registry key, the existing entry is overwritten with the new
role and material and the registry does not grow (and `addKey` has no
error channel at all). -/
theorem C10_addKey_overwrites (e : Ed25519) (role : String) (k : PrivateKey)
    (h : (regLookup e.keys k.ID).isSome = true) :
    (addKey e role k).keys.length = e.keys.length ∧
    regLookup (addKey e role k).keys k.ID = some ⟨role, k⟩ := by
  constructor
  · exact regInsert_length_of_mem e.keys k.ID ⟨role, k⟩ h
  · show regLookup (regInsert e.keys k.ID ⟨role, k⟩) k.ID = some ⟨role, k⟩
    rw [regLookup_regInsert, if_pos rfl]

theorem publicKeysLoop_lookup (e : Ed25519) (ids : List String)
    (acc : List (String × PublicKey)) (kid : String) :
    regLookup (publicKeysLoop e acc ids) kid =
      if kid ∈ ids ∧ (regLookup e.keys kid).isSome = true
      then (regLookup e.keys kid).map (fun ek => PublicKeyFromPrivate ek.privKey)
      else regLookup acc kid := by
  induction ids generalizing acc with
  | nil => simp [publicKeysLoop]
  | cons a rest ih =>
    cases hsome : regLookup e.keys a with
    | some ek =>
      simp only [publicKeysLoop, hsome]
      rw [ih]
      by_cases hc : kid ∈ rest ∧ (regLookup e.keys kid).isSome = true
      · rw [if_pos hc, if_pos ⟨List.mem_cons_of_mem a hc.1, hc.2⟩]
      · rw [if_neg hc, regLookup_regInsert]
        by_cases heq : kid = a
        · subst heq
          rw [if_pos rfl, if_pos ⟨List.mem_cons_self kid rest, by rw [hsome]; rfl⟩, hsome]
          rfl
        · have hcond : ¬ (kid ∈ a :: rest ∧ (regLookup e.keys kid).isSome = true) := by
            intro hcc
            rcases hcc with ⟨hmem, hs⟩
            rcases List.mem_cons.mp hmem with h1 | h2
            · exact heq h1
            · exact hc ⟨h2, hs⟩
          rw [if_neg heq, if_neg hcond]
    | none =>
      simp only [publicKeysLoop, hsome]
      rw [ih]
      by_cases hc : kid ∈ rest ∧ (regLookup e.keys kid).isSome = true
      · rw [if_pos hc, if_pos ⟨List.mem_cons_of_mem a hc.1, hc.2⟩]
      · have hcond : ¬ (kid ∈ a :: rest ∧ (regLookup e.keys kid).isSome = true) := by
          intro hcc
          rcases hcc with ⟨hmem, hs⟩
          rcases List.mem_cons.mp hmem with h1 | h2
          · rw [h1, hsome] at hs
            simp at hs
          · exact hc ⟨h2, hs⟩
        rw [if_neg hc, if_neg hcond]

/-- Claim C7: `PublicKeys` returns a nil error, and its result binds
exactly the requested identifiers that exist in the registry — each to
the public key derived from the stored entry — while absent identifiers
are silently omitted. -/
theorem C7_publicKeys_best_effort (e : Ed25519) (ids : List String) (kid : String) :
    (PublicKeys e ids).2 = none ∧
    regLookup (PublicKeys e ids).1 kid =
      (if kid ∈ ids
       then (regLookup e.keys kid).map (fun ek => PublicKeyFromPrivate ek.privKey)
       else none) := by
  refine ⟨rfl, ?_⟩
  show regLookup (publicKeysLoop e [] ids) kid = _
  rw [publicKeysLoop_lookup]
  by_cases h1 : kid ∈ ids
  · by_cases h2 : (regLookup e.keys kid).isSome = true
    · rw [if_pos ⟨h1, h2⟩, if_pos h1]
    · have hl : regLookup e.keys kid = none := by
        cases hl2 : regLookup e.keys kid with
        | none => rfl
        | some w => rw [hl2] at h2; exact absurd rfl h2
      rw [if_neg (fun hc => h2 hc.2), if_pos h1, hl]
      rfl
  · rw [if_neg (fun hc => h1 hc.1), if_neg h1]
    rfl

/-- Claim C9: when every requested identifier is present, `Sign` returns
a nil error and one signature per requested identifier, the i-th
signature names the i-th requested identifier, and every signature's
method is the fixed `EDDSASignature` tag. -/
theorem C9_sign_order_and_method (e : Ed25519) (ids : List String) (msg : List Nat)
    (h : ∀ kid ∈ ids, (regLookup e.keys kid).isSome = true) :
    (Sign e ids msg).2 = none ∧
    (Sign e ids msg).1.length = ids.length ∧
    (∀ i : Nat, ((Sign e ids msg).1[i]?).map Signature.keyID = ids[i]?) ∧
    (∀ s ∈ (Sign e ids msg).1, s.method = EDDSASignature) := by
  refine ⟨rfl, ?_, ?_, ?_⟩
  · simp [Sign]
  · intro i
    simp only [Sign]
    rw [List.getElem?_map]
    cases hi : ids[i]? with
    | none => rfl
    | some kid => rfl
  · intro s hs
    simp only [Sign] at hs
    rcases List.mem_map.mp hs with ⟨kid, hmem, hkid⟩
    rw [← hkid]

/-- A concrete key used by the witnesses. -/
def wKey : PrivateKey := ⟨ED25519Key, [1, 2], [3, 4]⟩

/-- A second key with the same public component (hence the same derived
identifier) as `wKey` but different private material, used by the C10
witness. -/
def wKey2 : PrivateKey := ⟨ED25519Key, [1, 2], [9, 9]⟩

/-- A concrete one-entry store used by the witnesses. -/
def wStore : Ed25519 := addKey NewEd25519 "root" wKey

/-- Witness for C9 at a concrete store, identifier list and message. -/
theorem C9_sign_order_and_method_witness :
    (∀ kid ∈ [wKey.ID], (regLookup wStore.keys kid).isSome = true) ∧
    ((Sign wStore [wKey.ID] [7]).2 = none ∧
     (Sign wStore [wKey.ID] [7]).1.length = [wKey.ID].length ∧
     (∀ i : Nat, ((Sign wStore [wKey.ID] [7]).1[i]?).map Signature.keyID = [wKey.ID][i]?) ∧
     (∀ s ∈ (Sign wStore [wKey.ID] [7]).1, s.method = EDDSASignature)) :=
  ⟨by decide, C9_sign_order_and_method wStore [wKey.ID] [7] (by decide)⟩

/-- Witness for C10: adding `wKey2`, whose derived identifier collides
with the stored `wKey`, overwrites the entry without growing the store. -/
theorem C10_addKey_overwrites_witness :
    ((regLookup wStore.keys wKey2.ID).isSome = true) ∧
    ((addKey wStore "targets" wKey2).keys.length = wStore.keys.length ∧
     regLookup (addKey wStore "targets" wKey2).keys wKey2.ID = some ⟨"targets", wKey2⟩) :=
  ⟨by decide, C10_addKey_overwrites wStore "targets" wKey2 (by decide)⟩

/-- Claim C1 fails on the code: `Sign` on an identifier absent from the
registry returns a nil error and a signature synthesized from the
zero-filled private key buffer, instead of failing with `KeyNotFound`. -/
theorem C1_sign_absent_signs_with_zero_key :
    (Sign NewEd25519 ["missing"] [104, 105]).2 = none ∧
    (Sign NewEd25519 ["missing"] [104, 105]).1 =
      [{ keyID := "missing", method := EDDSASignature,
         signature := ed25519Sign (List.replicate PrivateKeySize 0) [104, 105] }] := by
  constructor
  · rfl
  · rfl

/-- Claim C2 fails on the code: `GetKey` has no error channel at all; on
an absent identifier it silently returns the public key derived from the
zero-valued private key instead of failing with `KeyNotFound`. -/
theorem C2_getKey_absent_returns_zero_derived :
    GetKey NewEd25519 "missing" = PublicKeyFromPrivate zeroPrivateKey ∧
    PublicKeyFromPrivate zeroPrivateKey = PublicKey.mk "" [] :=
  ⟨rfl, rfl⟩

/-- Claim C3 fails on the code: `GetPrivateKey` returns the hard-coded
empty role for a stored entry whose recorded role is "root", and for an
absent identifier returns the zero-valued key with a nil error instead
of failing with `KeyNotFound`. -/
theorem C3_getPrivateKey_drops_role_and_never_fails :
    (GetPrivateKey wStore wKey.ID).1 = wKey ∧
    (GetPrivateKey wStore wKey.ID).2.1 = "" ∧
    ListAllKeys wStore = [(wKey.ID, "root")] ∧
    (GetPrivateKey NewEd25519 "missing").1 = zeroPrivateKey ∧
    (GetPrivateKey NewEd25519 "missing").2.2 = none := by
  refine ⟨by decide, rfl, by decide, rfl, rfl⟩

end Notary
